import Mathlib

/-!
# Verification of the BrowserAudioIRBlaster NEC signal codec

Shallow embedding of `src/ir-generator.js` (class `IRGenerator`): the NEC
protocol timing model, the carrier synthesis into PCM sample lists, the
16-bit PCM quantizer, the WAV container serializer and the hex command
decoder.  The source file contains two revisions of the generator: the
first renders pulses as a unipolar rectified sine carrier, the second as
an on/off square wave with a 33% duty cycle; both share the same segment
structure, sample counting and WAV path, and both are embedded here.

Numbers: JavaScript arithmetic runs on IEEE-754 binary64.  Where rounding
of doubles is observable in the program's integer outputs (the
`Math.floor((duration / 1000000) * sampleRate)` sample counts), the double
computation is modelled exactly by `fl`, round-to-nearest, ties-to-even,
53-bit significand (subnormals and overflow are far outside the ranges
that occur).  Sample *values* and integer/bit operations are exact in ℚ/ℤ
(the products `s * 0x8000` / `s * 0x7FFF` of a float32 sample are exact in
binary64, and all bit manipulation is on 32-bit integers).
-/

namespace IRBlaster

/-! ## IEEE-754 binary64 model -/

/-- Base-2 integer logarithm of a natural number, by fuel recursion so that
it reduces in the kernel.  For `n ≥ 1` and enough fuel this is `⌊log₂ n⌋`. -/
def log2fuel : ℕ → ℕ → ℕ
  | 0, _ => 0
  | fuel + 1, n => if 2 ≤ n then log2fuel fuel (n / 2) + 1 else 0

/-- `⌊log₂ q⌋` for a positive rational `q` (an arbitrary value otherwise):
a first estimate from the numerator and denominator, then a correction
step.  All numbers appearing in this development are below `2^128`. -/
def ilog2 (q : ℚ) : ℤ :=
  let e0 : ℤ := (log2fuel 128 q.num.toNat : ℤ) - (log2fuel 128 q.den : ℤ)
  if (2 : ℚ) ^ (e0 + 1) ≤ q then e0 + 1
  else if (2 : ℚ) ^ e0 ≤ q then e0
  else e0 - 1

/-- Round a rational to the nearest integer, ties to even. -/
def roundHalfEven (x : ℚ) : ℤ :=
  let f := ⌊x⌋
  if x - f < 1 / 2 then f
  else if 1 / 2 < x - f then f + 1
  else if f % 2 = 0 then f else f + 1

/-- Round a rational to the nearest IEEE-754 binary64 value (round to
nearest, ties to even, 53-bit significand; subnormals and overflow do not
occur for the inputs of this program).  This is the result of every
JavaScript floating-point operation, applied to the exact value of the
operation. -/
def fl (q : ℚ) : ℚ :=
  if q = 0 then 0
  else if 0 < q then
    (roundHalfEven (q * 2 ^ (52 - ilog2 q)) : ℚ) * 2 ^ (ilog2 q - 52)
  else
    -((roundHalfEven (-q * 2 ^ (52 - ilog2 (-q))) : ℚ) * 2 ^ (ilog2 (-q) - 52))

/-! ## Generator configuration (constructor of `IRGenerator`) -/

/-- `this.sampleRate = 192000` (exact in binary64). -/
def sampleRate : ℚ := 192000

/-- `this.dutyCycle = 0.33`: the binary64 value of the literal `0.33`. -/
def dutyCycle : ℚ := fl (33 / 100)

/-- Carrier amplitude constant `0.8` of both `generatePulse` revisions,
taken at its exact literal value. -/
def amplitude : ℚ := 4 / 5

/-- Constructor: `this.carrierFrequency = carrierFrequency * 1000`
(kHz → Hz), default argument 38. -/
def defaultCarrierFreq : ℚ := 38 * 1000

/-! ## Sample counting and pulse rendering -/

/-- `Math.floor((duration / 1000000) * this.sampleRate)` evaluated in
binary64, exactly as both revisions of `generatePulse` compute the length
of a segment.  Note the two roundings: the quotient `duration / 1000000`
is rounded to a double before the multiplication. -/
def sampleCountJs (d : ℚ) : ℕ := (⌊fl (fl (d / 1000000) * sampleRate)⌋).toNat

/-- `const carrierPeriod = this.sampleRate / this.carrierFrequency` (a
binary64 division). -/
def carrierPeriod (cf : ℚ) : ℚ := fl (sampleRate / cf)

/-- JavaScript `x % p` for `x ≥ 0 < p`: `x - ⌊x / p⌋ * p`.  The IEEE
remainder of two doubles is computed exactly (no rounding). -/
def jsMod (x p : ℚ) : ℚ := x - ⌊x / p⌋ * p

/-- `generatePulse` of the square-wave revision (second copy of the file,
`IRGenerator.generatePulse`): `samples = Math.floor(...)`; if `modulated`,
`onSamples = Math.floor(carrierPeriod * this.dutyCycle)` and
`pulse[i] = (i % carrierPeriod) < onSamples ? 0.8 : 0`; otherwise a list
of zero samples. -/
def generatePulseSq (cf : ℚ) (d : ℚ) (modulated : Bool) : List ℚ :=
  let n := sampleCountJs d
  if modulated then
    let p := carrierPeriod cf
    let onSamples := (⌊fl (p * dutyCycle)⌋).toNat
    (List.range n).map fun (i : ℕ) =>
      if jsMod (i : ℚ) p < (onSamples : ℚ) then amplitude else 0
  else
    List.replicate n 0

/-- `generatePulse` of the rectified-sine revision (first copy of the
file): `pulse[i] = ((Math.sin(2 * Math.PI * i / carrierPeriod) + 1) / 2) * 0.8`.
`Math.sin` and the literal `Math.PI` are implementation approximations;
they are modelled by parameters `sine` (an arbitrary function, about which
theorems assume only `-1 ≤ sine x ≤ 1`, the range of `Math.sin`) and
`piD` (the double approximation of π). -/
def generatePulseSine (sine : ℚ → ℚ) (piD : ℚ) (cf : ℚ) (d : ℚ) (modulated : Bool) : List ℚ :=
  let n := sampleCountJs d
  if modulated then
    let p := carrierPeriod cf
    (List.range n).map fun (i : ℕ) => ((sine (2 * piD * (i : ℚ) / p) + 1) / 2) * amplitude
  else
    List.replicate n 0

/-! ## NEC timing segments (`generateNECCommand`) -/

/-- Kind of a timing segment: a modulated burst (`pulse`, second argument
`true` of `generatePulse`) or silence (`space`, second argument `false`). -/
inductive SegKind where
  | pulse
  | space
deriving DecidableEq

/-- A timing segment: kind plus duration in microseconds, as pushed by
`generateNECCommand`. -/
structure Segment where
  kind : SegKind
  durationUs : ℚ
deriving DecidableEq

/-- Whether a segment is rendered with the carrier (the boolean second
argument passed to `generatePulse`). -/
def Segment.modulated (s : Segment) : Bool :=
  match s.kind with
  | .pulse => true
  | .space => false

/-- `(~b) & 0xFF`: JavaScript bitwise complement (on 32-bit integers,
`~b = -(b+1)`) followed by masking to the low byte. -/
def jsComplement8 (b : ℕ) : ℕ := (((-(b + 1) : ℤ)) % 256).toNat

/-- The 4-byte payload of `generateNECCommand`:
`[address, (~address) & 0xFF, command, (~command) & 0xFF]`. -/
def necDataBytes (address command : ℕ) : List ℕ :=
  [address, jsComplement8 address, command, jsComplement8 command]

/-- `(byte >> bit) & 1`: bit `k` of a byte, least significant first. -/
def bitOf (b k : ℕ) : ℕ := b / 2 ^ k % 2

/-- The 16 segments emitted for one payload byte: for each bit from least
to most significant, a 562.5µs pulse then a 1687.5µs space for a 1 bit or
a 562.5µs space for a 0 bit. -/
def bitSegments (b : ℕ) : List Segment :=
  (List.range 8).flatMap fun k =>
    [⟨.pulse, 562.5⟩, ⟨.space, if bitOf b k = 1 then 1687.5 else 562.5⟩]

/-- Segments of one NEC frame before the trailing silence: AGC leader
(9ms pulse, 4.5ms space), 64 data segments, final 562.5µs burst. -/
def necFrameCore (address command : ℕ) : List Segment :=
  [⟨.pulse, 9000⟩, ⟨.space, 4500⟩]
    ++ (necDataBytes address command).flatMap bitSegments
    ++ [⟨.pulse, 562.5⟩]

/-- All segments pushed by `generateNECCommand`, in order: the frame core
followed by the trailing 50ms silence (`this.generatePulse(50000, false)`). -/
def necSegments (address command : ℕ) : List Segment :=
  necFrameCore address command ++ [⟨.space, 50000⟩]

/-- `generateNECCommand` of the square-wave revision: render every segment
and concatenate in order (the `signal.set(segment, offset)` loop). -/
def generateNECCommandSq (cf : ℚ) (address command : ℕ) : List ℚ :=
  (necSegments address command).flatMap fun s => generatePulseSq cf s.durationUs s.modulated

/-- `generateNECCommand` of the rectified-sine revision. -/
def generateNECCommandSine (sine : ℚ → ℚ) (piD cf : ℚ) (address command : ℕ) : List ℚ :=
  (necSegments address command).flatMap fun s =>
    generatePulseSine sine piD cf s.durationUs s.modulated

/-! ## 16-bit quantization and the WAV serializer (`audioBufferToWav`) -/

/-- Truncation toward zero of a rational, the integer conversion performed
by `DataView.prototype.setInt16` (ECMAScript `ToInt16`) on a finite
number. -/
def jsTrunc (x : ℚ) : ℤ := if x < 0 then ⌈x⌉ else ⌊x⌋

/-- Wrap an integer into the signed 16-bit range, the final step of
`ToInt16`. -/
def toInt16 (n : ℤ) : ℤ :=
  let m := n % 65536
  if m < 32768 then m else m - 65536

/-- The value stored for one sample by `floatTo16BitPCM`:
`const s = Math.max(-1, Math.min(1, input[i]));`
`output.setInt16(offset, s < 0 ? s * 0x8000 : s * 0x7FFF, true)`.
For float32 inputs the binary64 products are exact (≤ 39 significant
bits), so the arithmetic is modelled exactly in ℚ. -/
def quantizeSample (s : ℚ) : ℤ :=
  let s' := max (-1) (min 1 s)
  toInt16 (jsTrunc (if s' < 0 then s' * 32768 else s' * 32767))

/-- Two little-endian bytes of a 16-bit write (`setUint16`/`setInt16`
after wrapping): the value taken modulo 2^16. -/
def u16le (v : ℕ) : List ℕ := [v % 256, v / 256 % 256]

/-- Four little-endian bytes of a `setUint32` write. -/
def u32le (v : ℕ) : List ℕ := [v % 256, v / 256 % 256, v / 2 ^ 16 % 256, v / 2 ^ 24 % 256]

/-- Little-endian two's-complement bytes of a `setInt16` write of an
integer already in the signed 16-bit range. -/
def i16le (v : ℤ) : List ℕ := u16le ((v % 65536).toNat)

/-- The bytes written by the `writeString` helper: UTF-16 code units
(`charCodeAt`), which for the ASCII chunk tags are the ASCII codes. -/
def asciiBytes (s : String) : List ℕ := s.toList.map Char.toNat

/-- The byte stream produced by the `floatTo16BitPCM` loop: for each input
sample, the quantized value as two little-endian bytes. -/
def floatTo16BitPCM (input : List ℚ) : List ℕ :=
  input.flatMap fun s => i16le (quantizeSample s)

/-- Model of a Web-Audio `AudioBuffer` as consumed by `audioBufferToWav`:
channel count, sample rate, frame count per channel (`buffer.length`) and
the channel-0 data (`buffer.getChannelData(0)`, the only channel the
serializer reads). -/
structure JsAudioBuffer where
  numberOfChannels : ℕ
  sampleRate : ℕ
  length : ℕ
  chan0 : List ℚ

/-- `createAudioBuffer(signal)`: a mono buffer at `this.sampleRate`
(192000) whose single channel is the signal. -/
def createAudioBuffer (signal : List ℚ) : JsAudioBuffer :=
  ⟨1, 192000, signal.length, signal⟩

/-- `audioBufferToWav`: the 44-byte RIFF/WAVE header followed by the PCM
data.  The `DataView` writes cover bytes 0–43 contiguously and in order
(`writeString(0,'RIFF')`, `setUint32(4,…)`, …, `setUint32(40,…)`), then
`floatTo16BitPCM(view, 44, buffer.getChannelData(0))` writes two bytes
per channel-0 sample from offset 44; any remaining bytes of the
zero-initialized `ArrayBuffer(44 + length)` stay 0. -/
def audioBufferToWav (b : JsAudioBuffer) : List ℕ :=
  let len := b.length * b.numberOfChannels * 2
  asciiBytes "RIFF" ++ u32le (36 + len)
    ++ asciiBytes "WAVE" ++ asciiBytes "fmt "
    ++ u32le 16 ++ u16le 1 ++ u16le b.numberOfChannels ++ u32le b.sampleRate
    ++ u32le (b.sampleRate * 2 * b.numberOfChannels) ++ u16le (b.numberOfChannels * 2)
    ++ u16le 16 ++ asciiBytes "data" ++ u32le len
    ++ floatTo16BitPCM b.chan0
    ++ List.replicate (len - 2 * b.chan0.length) 0

/-! ## Hex command decoding (`generateFromHex`) -/

/-- `hexCode.replace(/0x/i, '')`: remove the first occurrence (anywhere in
the string, not only a prefix) of `"0x"` or `"0X"`; the string is
unchanged when there is none. -/
def replaceFirst0x : List Char → List Char
  | [] => []
  | ch :: rest =>
    if ch = '0' ∧ (rest.head? = some 'x' ∨ rest.head? = some 'X') then rest.tail
    else ch :: replaceFirst0x rest

/-- Radix-16 digit test of `parseInt` (ASCII `0`–`9`, `a`–`f`, `A`–`F`). -/
def isHexDigitCh (ch : Char) : Bool :=
  (48 ≤ ch.toNat && ch.toNat ≤ 57)
    || (97 ≤ ch.toNat && ch.toNat ≤ 102)
    || (65 ≤ ch.toNat && ch.toNat ≤ 70)

/-- Numeric value of a hex digit. -/
def hexVal (ch : Char) : ℕ :=
  if ch.toNat ≤ 57 then ch.toNat - 48
  else if 97 ≤ ch.toNat then ch.toNat - 87
  else ch.toNat - 55

/-- Value of a digit string interpreted in base 16, most significant digit
first. -/
def hexDigitsValue (cs : List Char) : ℕ :=
  cs.foldl (fun acc ch => 16 * acc + hexVal ch) 0

/-- Whitespace skipped by `parseInt` (the code points that can occur here;
the full ECMAScript white-space set is larger but irrelevant to any
theorem below). -/
def isJsWs (ch : Char) : Bool := ch = ' ' || ch = '\t' || ch = '\n' || ch = '\r'

/-- ECMAScript `parseInt(string, 16)`: skip leading white space, an
optional sign, an optional `0x`/`0X` prefix, then read the longest prefix
of hex digits; `NaN` (here `none`) when that prefix is empty. -/
def jsParseIntHex (cs : List Char) : Option ℤ :=
  let t := cs.dropWhile isJsWs
  let neg := t.head? = some '-'
  let t1 := if t.head? = some '-' ∨ t.head? = some '+' then t.tail else t
  let t2 :=
    if t1.head? = some '0' ∧ (t1.tail.head? = some 'x' ∨ t1.tail.head? = some 'X') then
      t1.tail.tail
    else t1
  let digits := t2.takeWhile isHexDigitCh
  if digits = [] then none
  else some (if neg then -(hexDigitsValue digits : ℤ) else (hexDigitsValue digits : ℤ))

/-- ECMAScript `ToInt32`: wrap into the signed 32-bit range.  `NaN`
(`none`) converts to 0. -/
def jsToInt32 : Option ℤ → ℤ
  | none => 0
  | some v =>
    let m := v % 4294967296
    if m < 2147483648 then m else m - 4294967296

/-- The parse/validate/extract part of `generateFromHex`: strip the first
`0x`, throw (`none`) when the remaining length is not 8, otherwise
`fullCode = parseInt(code, 16)` and
`address = (fullCode >> 24) & 0xFF`, `command = (fullCode >> 8) & 0xFF`.
JavaScript `>>` converts to int32 and shifts arithmetically (Euclidean
division by a power of two on the wrapped value); `& 0xFF` keeps the low
byte. -/
def generateFromHexFields (hexCode : String) : Option (ℕ × ℕ) :=
  let code := replaceFirst0x hexCode.toList
  if code.length ≠ 8 then none
  else
    let fullCode := jsToInt32 (jsParseIntHex code)
    some (((fullCode / 2 ^ 24) % 256).toNat, ((fullCode / 2 ^ 8) % 256).toNat)

/-- The whole `generateFromHex` pipeline (square-wave revision): fields,
signal, audio buffer, WAV bytes.  Returns the sample buffer and the WAV
byte stream. -/
def generateFromHexSq (cf : ℚ) (hexCode : String) : Option (List ℚ × List ℕ) :=
  (generateFromHexFields hexCode).map fun ac =>
    let signal := generateNECCommandSq cf ac.1 ac.2
    (signal, audioBufferToWav (createAudioBuffer signal))

/-- The whole `generateFromHex` pipeline for the rectified-sine revision. -/
def generateFromHexSine (sine : ℚ → ℚ) (piD cf : ℚ) (hexCode : String) :
    Option (List ℚ × List ℕ) :=
  (generateFromHexFields hexCode).map fun ac =>
    let signal := generateNECCommandSine sine piD cf ac.1 ac.2
    (signal, audioBufferToWav (createAudioBuffer signal))

/-! ## Definitions taken from the specification's wording -/

/-- The quantization rule exactly as the specification words it:
clamp to `[-1, 1]`, then `round(s * 32768)` for negative samples and
`round(s * 32767)` otherwise, with JavaScript `Math.round x = ⌊x + 1/2⌋`. -/
def quantizeSampleSpec (s : ℚ) : ℤ :=
  let s' := max (-1) (min 1 s)
  if s' < 0 then ⌊s' * 32768 + 1 / 2⌋ else ⌊s' * 32767 + 1 / 2⌋

/-- The 40000µs inter-frame gap / trailing guard segment of the
specification's `encodeRepeated`. -/
def interFrameGap : Segment := ⟨.space, 40000⟩

/-- Modelled from the spec: the repetition step of `encodeRepeated`
(§4.2), which is absent from `src/` — the repository's code generates a
single frame only.  "Repeats step 1–4 `repeatCount` times; inserts
Space(40000) between repeats (not after the last)". -/
def repeatWithGaps (frame : List Segment) : ℕ → List Segment
  | 0 => []
  | 1 => frame
  | n + 2 => frame ++ [interFrameGap] ++ repeatWithGaps frame (n + 1)

/-- Modelled from the spec: `encodeRepeated(address, command, repeatCount)`
(§4.2), absent from `src/`.  "Repeats step 1–4 `repeatCount` times;
inserts Space(40000) between repeats (not after the last); appends one
final Space(40000) after the whole sequence regardless of repeatCount.
Fails with `InvalidArgument` if repeatCount < 1 or address/command are
outside [0,255]."  Steps 1–4 of one frame are `necFrameCore`, which is in
`src/` (`generateNECCommand` without its trailing silence). -/
def encodeRepeated (address command repeatCount : ℕ) : Except String (List Segment) :=
  if repeatCount < 1 ∨ 255 < address ∨ 255 < command then .error "InvalidArgument"
  else .ok (repeatWithGaps (necFrameCore address command) repeatCount ++ [interFrameGap])

/-- Field extraction on an (unsigned) 32-bit command word, as the
specification describes it: `address = (word >> 24) & 0xFF`. -/
def wordAddress (w : ℕ) : ℕ := w / 2 ^ 24 % 256

/-- `command = (word >> 8) & 0xFF`. -/
def wordCommand (w : ℕ) : ℕ := w / 2 ^ 8 % 256

/-- Re-encode an address/command byte pair into a 32-bit command word with
the layout of §3: bits 31:24 the address, 23:16 its complement, 15:8 the
command, 7:0 its complement. -/
def reEncodeWord (a c : ℕ) : ℕ :=
  a * 2 ^ 24 + (255 - a) * 2 ^ 16 + c * 2 ^ 8 + (255 - c)

end IRBlaster

attribute [local semireducible] Rat.add Rat.mul Rat.inv Rat.sub Rat.ofScientific

set_option maxRecDepth 10000

namespace IRBlaster

/-! ## Helper lemmas -/

theorem toInt16_eq_self {n : ℤ} (h₁ : -32768 ≤ n) (h₂ : n ≤ 32767) : toInt16 n = n := by
  simp only [toInt16]
  omega

theorem roundHalfEven_nonneg {x : ℚ} (hx : 0 ≤ x) : 0 ≤ roundHalfEven x := by
  have hf : (0 : ℤ) ≤ ⌊x⌋ := Int.floor_nonneg.mpr hx
  simp only [roundHalfEven]
  split <;> [exact hf; split] <;> [omega; split] <;> omega

theorem fl_nonneg {q : ℚ} (hq : 0 ≤ q) : 0 ≤ fl q := by
  unfold fl
  rcases eq_or_lt_of_le hq with h | h
  · simp [← h]
  · rw [if_neg (by positivity), if_pos h]
    have h1 : (0 : ℚ) < q * 2 ^ (52 - ilog2 q) := by positivity
    have h2 : (0 : ℤ) ≤ roundHalfEven (q * 2 ^ (52 - ilog2 q)) := roundHalfEven_nonneg h1.le
    positivity

theorem hexVal_lt {ch : Char} (h : isHexDigitCh ch) : hexVal ch < 16 := by
  simp only [isHexDigitCh, Bool.or_eq_true, Bool.and_eq_true, decide_eq_true_eq] at h
  simp only [hexVal]
  split <;> [skip; split] <;> omega

theorem hexDigitsValue_cons (ch : Char) (cs : List Char) (acc : ℕ) :
    (ch :: cs).foldl (fun a ch => 16 * a + hexVal ch) acc
      = cs.foldl (fun a ch => 16 * a + hexVal ch) (16 * acc + hexVal ch) := rfl

theorem hexFoldl_lt (cs : List Char) (acc : ℕ) (h : ∀ ch ∈ cs, isHexDigitCh ch) :
    cs.foldl (fun a ch => 16 * a + hexVal ch) acc < 16 ^ cs.length * (acc + 1) := by
  induction cs generalizing acc with
  | nil => simp
  | cons ch rest ih =>
    have hch : hexVal ch < 16 := hexVal_lt (h ch (by simp))
    have := ih (16 * acc + hexVal ch) fun x hx => h x (by simp [hx])
    calc (ch :: rest).foldl (fun a ch => 16 * a + hexVal ch) acc
        = rest.foldl (fun a ch => 16 * a + hexVal ch) (16 * acc + hexVal ch) := rfl
      _ < 16 ^ rest.length * (16 * acc + hexVal ch + 1) := this
      _ ≤ 16 ^ rest.length * (16 * (acc + 1)) := by
          exact Nat.mul_le_mul_left _ (by omega)
      _ = 16 ^ (ch :: rest).length * (acc + 1) := by
          simp only [List.length_cons, pow_succ]
          ring

theorem hexDigitsValue_lt (cs : List Char) (h : ∀ ch ∈ cs, isHexDigitCh ch) :
    hexDigitsValue cs < 16 ^ cs.length := by
  simpa [hexDigitsValue] using hexFoldl_lt cs 0 h

theorem not_hex_x : isHexDigitCh 'x' = false ∧ isHexDigitCh 'X' = false := by decide

theorem no_0x_of_hex {c0 : Char} {rest : List Char}
    (h : ∀ ch ∈ c0 :: rest, isHexDigitCh ch) :
    ¬(c0 = '0' ∧ (rest.head? = some 'x' ∨ rest.head? = some 'X')) := by
  rintro ⟨-, hx⟩
  rcases rest with - | ⟨r, rest'⟩
  · simp at hx
  · simp only [List.head?_cons, Option.some.injEq] at hx
    have hr : isHexDigitCh r = true := h r (by simp)
    rcases hx with rfl | rfl <;> exact absurd hr (by decide)

theorem replaceFirst0x_of_hex {cs : List Char} (h : ∀ ch ∈ cs, isHexDigitCh ch) :
    replaceFirst0x cs = cs := by
  induction cs with
  | nil => rfl
  | cons ch rest ih =>
    rw [replaceFirst0x, if_neg (no_0x_of_hex h), ih fun x hx => h x (by simp [hx])]

theorem hex_not_ws {ch : Char} (h : isHexDigitCh ch) : isJsWs ch = false := by
  simp only [isHexDigitCh, Bool.or_eq_true, Bool.and_eq_true, decide_eq_true_eq] at h
  simp only [isJsWs, Bool.or_eq_false_iff, decide_eq_false_iff_not]
  refine ⟨⟨⟨?_, ?_⟩, ?_⟩, ?_⟩ <;> rintro rfl <;> simp_all

theorem jsParseIntHex_of_hex {cs : List Char} (hne : cs ≠ [])
    (h : ∀ ch ∈ cs, isHexDigitCh ch) :
    jsParseIntHex cs = some ((hexDigitsValue cs : ℤ)) := by
  obtain ⟨c0, rest, rfl⟩ := List.exists_cons_of_ne_nil hne
  have h0 : isHexDigitCh c0 = true := h c0 (by simp)
  have hws : isJsWs c0 = false := hex_not_ws h0
  have hm : ¬c0 = '-' := fun e => absurd (e ▸ h0) (by decide)
  have hp : ¬c0 = '+' := fun e => absurd (e ▸ h0) (by decide)
  have htw : List.takeWhile isHexDigitCh (c0 :: rest) = c0 :: rest :=
    List.takeWhile_eq_self_iff.mpr h
  have e1 : List.dropWhile isJsWs (c0 :: rest) = c0 :: rest := by
    rw [List.dropWhile_cons, if_neg (by simp [hws])]
  unfold jsParseIntHex
  rw [e1]
  simp only [List.head?_cons, List.tail_cons, Option.some.injEq, eq_false hm, eq_false hp,
    or_self, if_false, eq_false (no_0x_of_hex h), htw,
    eq_false (List.cons_ne_nil c0 rest)]

theorem jsToInt32_shift24 {v : ℤ} (h0 : 0 ≤ v) (hv : v < 4294967296) :
    jsToInt32 (some v) / 2 ^ 24 % 256 = v / 2 ^ 24 % 256 := by
  have e : (2 : ℤ) ^ 24 = 16777216 := by norm_num
  simp only [jsToInt32, e]
  split <;> omega

theorem jsToInt32_shift8 {v : ℤ} (h0 : 0 ≤ v) (hv : v < 4294967296) :
    jsToInt32 (some v) / 2 ^ 8 % 256 = v / 2 ^ 8 % 256 := by
  have e : (2 : ℤ) ^ 8 = 256 := by norm_num
  simp only [jsToInt32, e]
  split <;> omega

theorem generateFromHexFields_of_hex {s : String}
    (hlen : (replaceFirst0x s.toList).length = 8)
    (hhex : ∀ ch ∈ replaceFirst0x s.toList, isHexDigitCh ch) :
    generateFromHexFields s
      = some (wordAddress (hexDigitsValue (replaceFirst0x s.toList)),
              wordCommand (hexDigitsValue (replaceFirst0x s.toList))) := by
  set cs := replaceFirst0x s.toList with hcs
  have hne : cs ≠ [] := by
    intro e
    rw [e] at hlen
    simp at hlen
  have hv : hexDigitsValue cs < 4294967296 := by
    have h16 := hexDigitsValue_lt cs hhex
    rw [hlen] at h16
    norm_num at h16
    exact h16
  unfold generateFromHexFields
  rw [← hcs, if_neg (by omega), jsParseIntHex_of_hex hne hhex]
  dsimp only
  have hvz : (0 : ℤ) ≤ (hexDigitsValue cs : ℤ) := Int.ofNat_nonneg _
  have hvz2 : (hexDigitsValue cs : ℤ) < 4294967296 := by exact_mod_cast hv
  rw [jsToInt32_shift24 hvz hvz2, jsToInt32_shift8 hvz hvz2]
  simp only [wordAddress, wordCommand, Option.some.injEq, Prod.mk.injEq]
  constructor <;>
  · have e24 : (2 : ℤ) ^ 24 = 16777216 := by norm_num
    have e8 : (2 : ℤ) ^ 8 = 256 := by norm_num
    have n24 : (2 : ℕ) ^ 24 = 16777216 := by norm_num
    have n8 : (2 : ℕ) ^ 8 = 256 := by norm_num
    simp only [e24, e8, n24, n8]
    omega

end IRBlaster

namespace IRBlaster

/-! ## Claim C5 -/

/-- C5 counterexample: the claim says decoding fails whenever some
remaining character is not a hex digit, and that only a `0x`/`0X` *prefix*
is stripped.  The code does neither: `"1234567Z"` contains the non-hex
digit `Z` yet decodes successfully (`parseInt` stops at the first invalid
character), and `"ABCD0xEF12"` (length 10, no `0x` prefix) also decodes
successfully because `replace(/0x/i, '')` removes the first `0x` found
anywhere in the string. -/
theorem hex_validation_counterexample :
    (generateFromHexFields "1234567Z").isSome = true ∧
    isHexDigitCh 'Z' = false ∧
    ("1234567Z".toList.length = 8) ∧
    (generateFromHexFields "ABCD0xEF12").isSome = true ∧
    ("ABCD0xEF12".toList.length = 10) := by decide

/-- C5 (amended): after removing the *first occurrence* of `0x`/`0X`
(anywhere in the string, not only a prefix), decoding fails if and only if
the remaining string's length is not exactly 8; non-hex characters are not
rejected.  When the remaining 8 characters are all hex digits, `parseInt`
returns exactly their base-16 big-endian value, which is below `2^32`, and
the decoder extracts the address and command fields from it. -/
theorem hex_decode_errors (s : String) :
    (generateFromHexFields s = none ↔ (replaceFirst0x s.toList).length ≠ 8) ∧
    ((replaceFirst0x s.toList).length = 8 →
      (∀ ch ∈ replaceFirst0x s.toList, isHexDigitCh ch) →
      jsParseIntHex (replaceFirst0x s.toList)
          = some ((hexDigitsValue (replaceFirst0x s.toList) : ℤ)) ∧
      hexDigitsValue (replaceFirst0x s.toList) < 2 ^ 32 ∧
      generateFromHexFields s
        = some (wordAddress (hexDigitsValue (replaceFirst0x s.toList)),
                wordCommand (hexDigitsValue (replaceFirst0x s.toList)))) := by
  constructor
  · unfold generateFromHexFields
    dsimp only
    split <;> simp_all
  · intro hlen hhex
    refine ⟨jsParseIntHex_of_hex ?_ hhex, ?_, generateFromHexFields_of_hex hlen hhex⟩
    · intro e
      rw [e] at hlen
      simp at hlen
    · have h16 := hexDigitsValue_lt _ hhex
      rw [hlen] at h16
      calc hexDigitsValue (replaceFirst0x s.toList) < 16 ^ 8 := h16
        _ ≤ 2 ^ 32 := by norm_num

/-- Witness for C5 at the hex string `"20DF10EF"`. -/
theorem hex_decode_errors_witness :
    jsParseIntHex (replaceFirst0x "20DF10EF".toList)
        = some ((hexDigitsValue (replaceFirst0x "20DF10EF".toList) : ℤ)) ∧
    hexDigitsValue (replaceFirst0x "20DF10EF".toList) < 2 ^ 32 ∧
    generateFromHexFields "20DF10EF"
      = some (wordAddress (hexDigitsValue (replaceFirst0x "20DF10EF".toList)),
              wordCommand (hexDigitsValue (replaceFirst0x "20DF10EF".toList))) :=
  (hex_decode_errors "20DF10EF").2 (by decide) (by decide)

/-! ## Claim C7 -/

/-- C7: for every valid 8-hex-digit string, decoding followed by
re-encoding the extracted address/command into a word with the same bit
layout reproduces the word's address and command fields exactly; field
extraction is total and always yields bytes. -/
theorem hex_field_roundtrip (s : String) (hlen : s.toList.length = 8)
    (hhex : ∀ ch ∈ s.toList, isHexDigitCh ch) :
    generateFromHexFields s
      = some (wordAddress (hexDigitsValue s.toList),
              wordCommand (hexDigitsValue s.toList)) ∧
    wordAddress (reEncodeWord (wordAddress (hexDigitsValue s.toList))
        (wordCommand (hexDigitsValue s.toList))) = wordAddress (hexDigitsValue s.toList) ∧
    wordCommand (reEncodeWord (wordAddress (hexDigitsValue s.toList))
        (wordCommand (hexDigitsValue s.toList))) = wordCommand (hexDigitsValue s.toList) ∧
    (∀ w : ℕ, wordAddress w < 256 ∧ wordCommand w < 256) ∧
    (∀ a c : ℕ, a < 256 → c < 256 →
      wordAddress (reEncodeWord a c) = a ∧ wordCommand (reEncodeWord a c) = c) := by
  have hre : replaceFirst0x s.toList = s.toList := replaceFirst0x_of_hex hhex
  have hbytes : ∀ w : ℕ, wordAddress w < 256 ∧ wordCommand w < 256 := fun w =>
    ⟨Nat.mod_lt _ (by norm_num), Nat.mod_lt _ (by norm_num)⟩
  have hround : ∀ a c : ℕ, a < 256 → c < 256 →
      wordAddress (reEncodeWord a c) = a ∧ wordCommand (reEncodeWord a c) = c := by
    intro a c ha hc
    have n24 : (2 : ℕ) ^ 24 = 16777216 := by norm_num
    have n16 : (2 : ℕ) ^ 16 = 65536 := by norm_num
    have n8 : (2 : ℕ) ^ 8 = 256 := by norm_num
    constructor
    · have e1 : reEncodeWord a c
          = (255 - a) * 65536 + c * 256 + (255 - c) + a * 16777216 := by
        unfold reEncodeWord
        rw [n24, n16, n8]
        ring
      rw [wordAddress, n24, e1, Nat.add_mul_div_right _ _ (by norm_num),
        Nat.div_eq_of_lt (by omega), Nat.zero_add, Nat.mod_eq_of_lt ha]
    · have e2 : reEncodeWord a c
          = (255 - c) + (c + (255 - a) * 256 + a * 65536) * 256 := by
        unfold reEncodeWord
        rw [n24, n16, n8]
        ring
      have e3 : c + (255 - a) * 256 + a * 65536 = c + ((255 - a) + a * 256) * 256 := by
        ring
      rw [wordCommand, n8, e2, Nat.add_mul_div_right _ _ (by norm_num),
        Nat.div_eq_of_lt (by omega), Nat.zero_add, e3, Nat.add_mul_mod_self_right,
        Nat.mod_eq_of_lt hc]
  refine ⟨?_, ?_, ?_, hbytes, hround⟩
  · have e := generateFromHexFields_of_hex (s := s) (by rw [hre, hlen]) (by rw [hre]; exact hhex)
    rwa [hre] at e
  · exact (hround _ _ (hbytes _).1 (hbytes _).2).1
  · exact (hround _ _ (hbytes _).1 (hbytes _).2).2

/-- Witness for C7 at the hex string `"20DF10EF"`. -/
theorem hex_field_roundtrip_witness :
    generateFromHexFields "20DF10EF"
      = some (wordAddress (hexDigitsValue "20DF10EF".toList),
              wordCommand (hexDigitsValue "20DF10EF".toList)) :=
  (hex_field_roundtrip "20DF10EF" (by decide) (by decide)).1

/-! ## Claim C10 -/

/-- C10: the decoder never reads the inverted-field bytes of the input
word — two 8-hex-digit inputs whose words agree on bits 31:24 and 15:8
produce identical signals and identical WAV bytes (in both generator
revisions), since the frame's inverted bytes are recomputed from the
address and command. -/
theorem inverted_fields_ignored (cf : ℚ) (sine : ℚ → ℚ) (piD : ℚ) (s₁ s₂ : String)
    (h₁len : s₁.toList.length = 8) (h₁hex : ∀ ch ∈ s₁.toList, isHexDigitCh ch)
    (h₂len : s₂.toList.length = 8) (h₂hex : ∀ ch ∈ s₂.toList, isHexDigitCh ch)
    (haddr : wordAddress (hexDigitsValue s₁.toList) = wordAddress (hexDigitsValue s₂.toList))
    (hcmd : wordCommand (hexDigitsValue s₁.toList) = wordCommand (hexDigitsValue s₂.toList)) :
    generateFromHexSq cf s₁ = generateFromHexSq cf s₂ ∧
    generateFromHexSine sine piD cf s₁ = generateFromHexSine sine piD cf s₂ := by
  have hre₁ : replaceFirst0x s₁.toList = s₁.toList := replaceFirst0x_of_hex h₁hex
  have hre₂ : replaceFirst0x s₂.toList = s₂.toList := replaceFirst0x_of_hex h₂hex
  have e₁ := generateFromHexFields_of_hex (s := s₁) (by rw [hre₁, h₁len]) (by rw [hre₁]; exact h₁hex)
  have e₂ := generateFromHexFields_of_hex (s := s₂) (by rw [hre₂, h₂len]) (by rw [hre₂]; exact h₂hex)
  rw [hre₁] at e₁
  rw [hre₂] at e₂
  unfold generateFromHexSq generateFromHexSine
  rw [e₁, e₂, haddr, hcmd]
  exact ⟨rfl, rfl⟩

/-- Witness for C10: `"20FF10FF"` and `"20DF10EF"` agree on the address
byte `0x20` and the command byte `0x10` but differ in both inverted
fields, and produce the same output. -/
theorem inverted_fields_ignored_witness :
    generateFromHexSq 38000 "20FF10FF" = generateFromHexSq 38000 "20DF10EF" ∧
    generateFromHexSine (fun _ => 0) 3 38000 "20FF10FF"
      = generateFromHexSine (fun _ => 0) 3 38000 "20DF10EF" :=
  inverted_fields_ignored 38000 (fun _ => 0) 3 "20FF10FF" "20DF10EF"
    (by decide) (by decide) (by decide) (by decide) (by decide) (by decide)

end IRBlaster

namespace IRBlaster

/-! ## Claim C1 -/

theorem jsComplement8_eq {b : ℕ} (hb : b ≤ 255) : jsComplement8 b = 255 - b := by
  unfold jsComplement8
  omega

theorem bitSegments_length (b : ℕ) : (bitSegments b).length = 16 := by
  simp only [bitSegments, List.length_flatMap, Function.comp_def, List.length_cons,
    List.length_nil]
  decide

/-- C1: for bytes in `[0,255]` the frame segments are, in order, the AGC
leader `Pulse 9000, Space 4500`; then for each payload byte
`[a, 255-a, c, 255-c]` and each bit from least to most significant a
`Pulse 562.5` followed by `Space 1687.5` for a 1 bit and `Space 562.5`
for a 0 bit (64 data segments); then the trailing `Pulse 562.5` (and the
50ms silence the code appends after it); the generated complement bytes
equal `255 - b`. -/
theorem nec_frame_structure (a c : ℕ) (ha : a ≤ 255) (hc : c ≤ 255) :
    jsComplement8 a = 255 - a ∧
    jsComplement8 c = 255 - c ∧
    necSegments a c =
      [⟨.pulse, 9000⟩, ⟨.space, 4500⟩]
        ++ ([a, 255 - a, c, 255 - c].flatMap fun b =>
              (List.range 8).flatMap fun k =>
                [⟨.pulse, 562.5⟩,
                 ⟨.space, if b / 2 ^ k % 2 = 1 then 1687.5 else 562.5⟩])
        ++ [⟨.pulse, 562.5⟩] ++ [⟨.space, 50000⟩] ∧
    ((necDataBytes a c).flatMap bitSegments).length = 64 := by
  refine ⟨jsComplement8_eq ha, jsComplement8_eq hc, ?_, ?_⟩
  · simp only [necSegments, necFrameCore, necDataBytes, List.flatMap_cons,
      List.flatMap_nil, bitSegments, bitOf, jsComplement8_eq ha, jsComplement8_eq hc,
      List.append_assoc, List.cons_append, List.nil_append]
  · simp [necDataBytes, bitSegments_length]

/-- Witness for C1 at address 32, command 16. -/
theorem nec_frame_structure_witness : jsComplement8 32 = 255 - 32 :=
  (nec_frame_structure 32 16 (by decide) (by decide)).1

/-! ## Claim C2 -/

/-- C2 counterexample: the claim says the emitted value is
`round(s * 32767)` for `s ≥ 0`, but `DataView.setInt16` truncates toward
zero: at `s = 1/2` (exactly representable as a float) the code emits
`⌊16383.5⌋ = 16383` while the claimed rule gives `16384`. -/
theorem quantizer_rounding_counterexample :
    quantizeSample (1 / 2) = 16383 ∧ quantizeSampleSpec (1 / 2) = 16384 ∧
    quantizeSample (1 / 2) ≠ quantizeSampleSpec (1 / 2) := by decide

/-- C2 (amended): the encoder first clamps `s` to `[-1, 1]` and then emits
the 16-bit value obtained by *truncating toward zero* `s * 32768` when
`s < 0` and `s * 32767` when `s ≥ 0` (`setInt16` truncates, it does not
round); in particular 1.0 maps to 32767, −1.0 to −32768 and 0.0 to 0. -/
theorem quantizer_truncation (s : ℚ) :
    quantizeSample s =
      (if max (-1) (min 1 s) < 0 then ⌈max (-1) (min 1 s) * 32768⌉
       else ⌊max (-1) (min 1 s) * 32767⌋) ∧
    quantizeSample 1 = 32767 ∧ quantizeSample (-1) = -32768 ∧ quantizeSample 0 = 0 := by
  refine ⟨?_, by decide, by decide, by decide⟩
  have h1 : (-1 : ℚ) ≤ max (-1) (min 1 s) := le_max_left _ _
  have h2 : max (-1) (min 1 s) ≤ 1 := max_le (by norm_num) (min_le_left _ _)
  unfold quantizeSample
  dsimp only
  split
  case isTrue h =>
    have hx : max (-1) (min 1 s) * 32768 < 0 := by nlinarith
    rw [jsTrunc, if_pos hx]
    refine toInt16_eq_self ?_ ?_
    · have hge : (-32768 : ℚ) ≤ max (-1) (min 1 s) * 32768 := by nlinarith
      exact_mod_cast hge.trans (Int.le_ceil _)
    · calc ⌈max (-1) (min 1 s) * 32768⌉ ≤ 0 := Int.ceil_le.mpr (by exact_mod_cast hx.le)
        _ ≤ 32767 := by norm_num
  case isFalse h =>
    have hx : (0 : ℚ) ≤ max (-1) (min 1 s) * 32767 :=
      mul_nonneg (not_lt.mp h) (by norm_num)
    rw [jsTrunc, if_neg (not_lt.mpr hx)]
    refine toInt16_eq_self ?_ ?_
    · calc (-32768 : ℤ) ≤ 0 := by norm_num
        _ ≤ ⌊max (-1) (min 1 s) * 32767⌋ := Int.floor_nonneg.mpr hx
    · have hle : max (-1) (min 1 s) * 32767 ≤ 32767 := by nlinarith
      calc ⌊max (-1) (min 1 s) * 32767⌋ ≤ ⌊(32767 : ℚ)⌋ := Int.floor_le_floor hle
        _ = 32767 := by norm_num

/-! ## Claim C8 -/

/-- C8: signal generation is deterministic — two calls with identical
(address, command, carrier-frequency) inputs produce element-for-element
identical sample buffers and byte-identical WAV streams, in both generator
revisions.  The embedding is a pure function of these inputs: the source
reads only its arguments and the per-instance constructor configuration,
which it never mutates. -/
theorem generate_deterministic (cf₁ cf₂ : ℚ) (sine : ℚ → ℚ) (piD : ℚ)
    (a₁ c₁ a₂ c₂ : ℕ) (hac : (a₁, c₁, cf₁) = (a₂, c₂, cf₂)) :
    generateNECCommandSq cf₁ a₁ c₁ = generateNECCommandSq cf₂ a₂ c₂ ∧
    audioBufferToWav (createAudioBuffer (generateNECCommandSq cf₁ a₁ c₁))
      = audioBufferToWav (createAudioBuffer (generateNECCommandSq cf₂ a₂ c₂)) ∧
    generateNECCommandSine sine piD cf₁ a₁ c₁ = generateNECCommandSine sine piD cf₂ a₂ c₂ ∧
    audioBufferToWav (createAudioBuffer (generateNECCommandSine sine piD cf₁ a₁ c₁))
      = audioBufferToWav (createAudioBuffer (generateNECCommandSine sine piD cf₂ a₂ c₂)) := by
  simp only [Prod.mk.injEq] at hac
  obtain ⟨rfl, rfl, rfl⟩ := hac
  exact ⟨rfl, rfl, rfl, rfl⟩

/-- Witness for C8 at carrier 38000 Hz, address 32, command 16. -/
theorem generate_deterministic_witness :
    generateNECCommandSq 38000 32 16 = generateNECCommandSq 38000 32 16 :=
  (generate_deterministic 38000 38000 (fun _ => 0) 3 32 16 32 16 rfl).1

end IRBlaster

namespace IRBlaster

/-! ## Claim C4 -/

theorem generatePulseSq_length (cf d : ℚ) (m : Bool) :
    (generatePulseSq cf d m).length = sampleCountJs d := by
  unfold generatePulseSq
  split
  · rw [List.length_map, List.length_range]
  · rw [List.length_replicate]

theorem generatePulseSine_length (sine : ℚ → ℚ) (piD cf d : ℚ) (m : Bool) :
    (generatePulseSine sine piD cf d m).length = sampleCountJs d := by
  unfold generatePulseSine
  split
  · rw [List.length_map, List.length_range]
  · rw [List.length_replicate]

/-- C4 counterexample: the number of rendered samples is *not* the exact
mathematical `floor(duration_us / 1e6 * sampleRateHz)`.  The binary64
evaluation `Math.floor((d / 1000000) * 192000)` loses one sample on the
9000µs leader, the 4500µs leader space and the 562.5µs bursts, because
`d / 1000000` is not exactly representable and rounds just below the
exact quotient. -/
theorem sample_count_counterexample :
    sampleCountJs 9000 = 1727 ∧ ⌊(9000 : ℚ) / 1000000 * 192000⌋ = 1728 ∧
    sampleCountJs 4500 = 863 ∧ ⌊(4500 : ℚ) / 1000000 * 192000⌋ = 864 ∧
    sampleCountJs 562.5 = 107 ∧ ⌊(562.5 : ℚ) / 1000000 * 192000⌋ = 108 := by decide

/-- C4 (amended): every rendered segment has exactly
`Math.floor` of the *binary64* product `(duration/1e6) * sampleRate`
samples — which at the NEC durations can be one below the exact floor —
and the assembled frame length is the sum of the per-segment counts, the
segments being concatenated in order with no gaps or overlap; the count
is never rounded up (it never exceeds the binary64 product). -/
theorem frame_sample_counts (sine : ℚ → ℚ) (piD cf : ℚ) (a c : ℕ) :
    (∀ d m, (generatePulseSq cf d m).length = sampleCountJs d) ∧
    (∀ d m, (generatePulseSine sine piD cf d m).length = sampleCountJs d) ∧
    (generateNECCommandSq cf a c).length
      = ((necSegments a c).map fun s => sampleCountJs s.durationUs).sum ∧
    (generateNECCommandSine sine piD cf a c).length
      = ((necSegments a c).map fun s => sampleCountJs s.durationUs).sum ∧
    (∀ d : ℚ, 0 ≤ d → (sampleCountJs d : ℚ) ≤ fl (fl (d / 1000000) * sampleRate)) := by
  refine ⟨generatePulseSq_length cf, generatePulseSine_length sine piD cf, ?_, ?_, ?_⟩
  · unfold generateNECCommandSq
    rw [List.length_flatMap]
    simp only [Function.comp_def, generatePulseSq_length]
  · unfold generateNECCommandSine
    rw [List.length_flatMap]
    simp only [Function.comp_def, generatePulseSine_length]
  · intro d hd
    have h1 : 0 ≤ fl (d / 1000000) := fl_nonneg (by positivity)
    have h2 : 0 ≤ fl (fl (d / 1000000) * sampleRate) :=
      fl_nonneg (mul_nonneg h1 (by norm_num [sampleRate]))
    have h3 : (0 : ℤ) ≤ ⌊fl (fl (d / 1000000) * sampleRate)⌋ := Int.floor_nonneg.mpr h2
    have h4 : ((⌊fl (fl (d / 1000000) * sampleRate)⌋ : ℤ) : ℚ)
        ≤ fl (fl (d / 1000000) * sampleRate) := Int.floor_le _
    rw [← Int.toNat_of_nonneg h3] at h4
    unfold sampleCountJs
    exact_mod_cast h4

/-- Witness for C4 at the 1687.5µs one-bit space duration. -/
theorem frame_sample_counts_witness :
    ((sampleCountJs 1687.5 : ℕ) : ℚ) ≤ fl (fl ((1687.5 : ℚ) / 1000000) * sampleRate) :=
  (frame_sample_counts (fun _ => 0) 3 38000 32 16).2.2.2.2 1687.5 (by decide)

/-! ## Claim C6 -/

theorem gap_not_in_frame (a c : ℕ) : interFrameGap ∉ necFrameCore a c := by
  intro hmem
  simp only [necFrameCore, necDataBytes, bitSegments, List.mem_append, List.mem_cons,
    List.mem_flatMap, List.mem_range, List.not_mem_nil, or_false] at hmem
  rcases hmem with ((h | h) | ⟨b, -, k, -, h | h⟩) | h
  · exact absurd h (by decide)
  · exact absurd h (by decide)
  · exact absurd h (by decide)
  · revert h
    split <;> intro h <;> exact absurd h (by decide)
  · exact absurd h (by decide)

theorem repeatWithGaps_count (f : List Segment) (hg : interFrameGap ∉ f) (n : ℕ) :
    (repeatWithGaps f (n + 1)).count interFrameGap = n := by
  induction n with
  | zero => simp [repeatWithGaps, List.count_eq_zero.mpr hg]
  | succ n ih =>
    have e : repeatWithGaps f (n + 1 + 1) = f ++ [interFrameGap] ++ repeatWithGaps f (n + 1) :=
      rfl
    rw [e]
    simp [List.count_append, ih, List.count_eq_zero.mpr hg]

/-- C6 (spec-modelled): `encodeRepeated` emits the frame `repeatCount`
times separated by `Space(40000)` gaps (none after the last repeat), then
appends exactly one trailing `Space(40000)` guard; with `repeatCount = 3`
this is frame-gap-frame-gap-frame plus the single guard — three 40000µs
space segments in total, never four; it fails with `InvalidArgument`
exactly when `repeatCount < 1` or address/command are outside `[0,255]`. -/
theorem encode_repeated_structure (a c n : ℕ) (ha : a ≤ 255) (hc : c ≤ 255) (hn : 1 ≤ n) :
    encodeRepeated a c n
      = .ok (repeatWithGaps (necFrameCore a c) n ++ [interFrameGap]) ∧
    encodeRepeated a c 3
      = .ok (necFrameCore a c ++ [interFrameGap]
          ++ (necFrameCore a c ++ [interFrameGap] ++ necFrameCore a c) ++ [interFrameGap]) ∧
    (∀ segs, encodeRepeated a c n = .ok segs → segs.count interFrameGap = n) ∧
    (∀ a' c' n', (∃ e, encodeRepeated a' c' n' = .error e) ↔ n' < 1 ∨ 255 < a' ∨ 255 < c') := by
  have hok : encodeRepeated a c n
      = .ok (repeatWithGaps (necFrameCore a c) n ++ [interFrameGap]) := by
    unfold encodeRepeated
    rw [if_neg (by omega)]
  refine ⟨hok, ?_, ?_, ?_⟩
  · unfold encodeRepeated
    rw [if_neg (by omega)]
    have e : repeatWithGaps (necFrameCore a c) 3
        = necFrameCore a c ++ [interFrameGap]
          ++ (necFrameCore a c ++ [interFrameGap] ++ necFrameCore a c) := rfl
    rw [e]
  · intro segs hsegs
    rw [hok] at hsegs
    injection hsegs with hsegs
    subst hsegs
    obtain ⟨m, rfl⟩ : ∃ m, n = m + 1 := ⟨n - 1, by omega⟩
    rw [List.count_append, repeatWithGaps_count _ (gap_not_in_frame a c)]
    simp
  · intro a' c' n'
    unfold encodeRepeated
    split
    · exact ⟨fun _ => by omega, fun _ => ⟨"InvalidArgument", rfl⟩⟩
    · constructor
      · rintro ⟨e, he⟩
        exact absurd he (by simp)
      · intro h
        omega

/-- Witness for C6 at address 32, command 16, repeatCount 3. -/
theorem encode_repeated_structure_witness :
    encodeRepeated 32 16 3
      = .ok (necFrameCore 32 16 ++ [interFrameGap]
          ++ (necFrameCore 32 16 ++ [interFrameGap] ++ necFrameCore 32 16)
          ++ [interFrameGap]) :=
  (encode_repeated_structure 32 16 3 (by decide) (by decide) (by decide)).2.1

end IRBlaster

namespace IRBlaster

/-! ## Claim C9 -/

theorem generatePulseSq_mem {cf d : ℚ} {m : Bool} {s : ℚ} (hs : s ∈ generatePulseSq cf d m) :
    0 ≤ s ∧ s ≤ amplitude := by
  unfold generatePulseSq at hs
  split at hs
  · simp only [List.mem_map] at hs
    obtain ⟨i, -, rfl⟩ := hs
    split
    · exact ⟨by norm_num [amplitude], le_refl _⟩
    · exact ⟨le_refl 0, by norm_num [amplitude]⟩
  · rw [List.eq_of_mem_replicate hs]
    exact ⟨le_refl 0, by norm_num [amplitude]⟩

theorem generatePulseSine_mem {sine : ℚ → ℚ} {piD cf d : ℚ} {m : Bool} {s : ℚ}
    (hb : ∀ x, -1 ≤ sine x ∧ sine x ≤ 1) (hs : s ∈ generatePulseSine sine piD cf d m) :
    0 ≤ s ∧ s ≤ amplitude := by
  unfold generatePulseSine at hs
  split at hs
  · simp only [List.mem_map] at hs
    obtain ⟨i, -, rfl⟩ := hs
    obtain ⟨hl, hr⟩ := hb (2 * piD * (i : ℚ) / carrierPeriod cf)
    have ha : amplitude = 4 / 5 := by norm_num [amplitude]
    rw [ha]
    constructor <;> nlinarith
  · rw [List.eq_of_mem_replicate hs]
    exact ⟨le_refl 0, by norm_num [amplitude]⟩

theorem generatePulseSq_space {cf d s : ℚ} (hs : s ∈ generatePulseSq cf d false) : s = 0 := by
  simp only [generatePulseSq, Bool.false_eq_true, if_false, List.mem_replicate] at hs
  exact hs.2

theorem generatePulseSine_space {sine : ℚ → ℚ} {piD cf d s : ℚ}
    (hs : s ∈ generatePulseSine sine piD cf d false) : s = 0 := by
  simp only [generatePulseSine, Bool.false_eq_true, if_false, List.mem_replicate] at hs
  exact hs.2

theorem quantize_unit {s : ℚ} (h0 : 0 ≤ s) (h8 : s ≤ amplitude) :
    max (-1) (min 1 s) = s ∧ 0 ≤ quantizeSample s ∧ quantizeSample s ≤ 26214 := by
  have ha : amplitude = 4 / 5 := by norm_num [amplitude]
  rw [ha] at h8
  have hclamp : max (-1) (min 1 s) = s := by
    rw [min_eq_right (by linarith), max_eq_right (by linarith)]
  have hge : (0 : ℤ) ≤ ⌊s * 32767⌋ := Int.floor_nonneg.mpr (mul_nonneg h0 (by norm_num))
  have hfu : ⌊s * 32767⌋ ≤ 26213 := by
    calc ⌊s * 32767⌋ ≤ ⌊(4 / 5 : ℚ) * 32767⌋ := Int.floor_le_floor (by nlinarith)
      _ = 26213 := by decide
  have hval : quantizeSample s = ⌊s * 32767⌋ := by
    unfold quantizeSample
    dsimp only
    rw [hclamp, if_neg (not_lt.mpr h0), jsTrunc,
      if_neg (not_lt.mpr (mul_nonneg h0 (by norm_num)))]
    exact toInt16_eq_self (by omega) (by omega)
  refine ⟨hclamp, ?_, ?_⟩
  · rw [hval]
    exact hge
  · rw [hval]
    omega

/-- C9: every sample of every generated signal lies in `[0, 0.8]`; space
segments are rendered as exactly 0 everywhere; pulse segments are unipolar
with amplitude bounded by the 0.8 constant in both revisions (square wave,
and rectified sine for any carrier function bounded by `[-1, 1]`); hence
the WAV clamp to `[-1, 1]` never changes a sample and every quantized
16-bit value lies in `[0, 26214]`. -/
theorem signal_range_invariant :
    (∀ cf d m, ∀ s ∈ generatePulseSq cf d m, 0 ≤ s ∧ s ≤ amplitude) ∧
    (∀ sine piD cf d m, (∀ x, -1 ≤ sine x ∧ sine x ≤ 1) →
      ∀ s ∈ generatePulseSine sine piD cf d m, 0 ≤ s ∧ s ≤ amplitude) ∧
    (∀ cf d, ∀ s ∈ generatePulseSq cf d false, s = 0) ∧
    (∀ sine piD cf d, ∀ s ∈ generatePulseSine sine piD cf d false, s = 0) ∧
    (∀ cf a c, ∀ s ∈ generateNECCommandSq cf a c, 0 ≤ s ∧ s ≤ amplitude) ∧
    (∀ sine piD cf a c, (∀ x, -1 ≤ sine x ∧ sine x ≤ 1) →
      ∀ s ∈ generateNECCommandSine sine piD cf a c, 0 ≤ s ∧ s ≤ amplitude) ∧
    (∀ s : ℚ, 0 ≤ s → s ≤ amplitude →
      max (-1) (min 1 s) = s ∧ 0 ≤ quantizeSample s ∧ quantizeSample s ≤ 26214) := by
  refine ⟨fun cf d m s hs => generatePulseSq_mem hs,
    fun sine piD cf d m hb s hs => generatePulseSine_mem hb hs,
    fun cf d s hs => generatePulseSq_space hs,
    fun sine piD cf d s hs => generatePulseSine_space hs,
    ?_, ?_, fun s h0 h8 => quantize_unit h0 h8⟩
  · intro cf a c s hs
    unfold generateNECCommandSq at hs
    obtain ⟨seg, -, hmem⟩ := List.mem_flatMap.mp hs
    exact generatePulseSq_mem hmem
  · intro sine piD cf a c hb s hs
    unfold generateNECCommandSine at hs
    obtain ⟨seg, -, hmem⟩ := List.mem_flatMap.mp hs
    exact generatePulseSine_mem hb hmem

/-- Witness for C9: 0.8 occurs as the first sample of a 10µs modulated
burst and its quantized value is in range. -/
theorem signal_range_invariant_witness :
    ((0 : ℚ) ≤ 4 / 5 ∧ (4 / 5 : ℚ) ≤ amplitude) ∧
    (max (-1) (min 1 (4 / 5 : ℚ)) = 4 / 5 ∧ 0 ≤ quantizeSample (4 / 5)
      ∧ quantizeSample (4 / 5) ≤ 26214) :=
  ⟨signal_range_invariant.1 38000 10 true (4 / 5) (by decide),
   signal_range_invariant.2.2.2.2.2.2 (4 / 5) (by decide) (by decide)⟩

end IRBlaster

namespace IRBlaster

/-! ## Claim C3 -/

theorem floatTo16BitPCM_length (l : List ℚ) : (floatTo16BitPCM l).length = 2 * l.length := by
  induction l with
  | nil => rfl
  | cons x xs ih =>
    have e : floatTo16BitPCM (x :: xs) = i16le (quantizeSample x) ++ floatTo16BitPCM xs := by
      simp [floatTo16BitPCM, List.flatMap_cons]
    rw [e, List.length_append, ih]
    simp only [i16le, u16le, List.length_cons, List.length_nil]
    omega

theorem u32le_length (v : ℕ) : (u32le v).length = 4 := rfl

theorem u16le_length (v : ℕ) : (u16le v).length = 2 := rfl

set_option maxHeartbeats 4000000 in
/-- C3: for every (well-formed) buffer the serializer emits the canonical
little-endian 16-bit PCM RIFF/WAVE byte layout: "RIFF", riff-size
`36 + dataLength`, "WAVE", "fmt ", fmt-chunk size 16, format tag 1,
channel count, sample rate, byte rate `sampleRate * 2 * channels`, block
align `2 * channels`, 16 bits per sample, "data" at offset 36,
`dataLength = sampleCountPerChannel * channelCount * 2` at offset 40, and
the sample data from offset 44. -/
theorem wav_header_layout (b : JsAudioBuffer) (hwf : b.chan0.length = b.length)
    (hch : 1 ≤ b.numberOfChannels) :
    (audioBufferToWav b).length = 44 + b.length * b.numberOfChannels * 2 ∧
    (audioBufferToWav b).take 4 = asciiBytes "RIFF" ∧
    ((audioBufferToWav b).drop 4).take 4 = u32le (36 + b.length * b.numberOfChannels * 2) ∧
    ((audioBufferToWav b).drop 8).take 4 = asciiBytes "WAVE" ∧
    ((audioBufferToWav b).drop 12).take 4 = asciiBytes "fmt " ∧
    ((audioBufferToWav b).drop 16).take 4 = u32le 16 ∧
    ((audioBufferToWav b).drop 20).take 2 = u16le 1 ∧
    ((audioBufferToWav b).drop 22).take 2 = u16le b.numberOfChannels ∧
    ((audioBufferToWav b).drop 24).take 4 = u32le b.sampleRate ∧
    ((audioBufferToWav b).drop 28).take 4 = u32le (b.sampleRate * 2 * b.numberOfChannels) ∧
    ((audioBufferToWav b).drop 32).take 2 = u16le (b.numberOfChannels * 2) ∧
    ((audioBufferToWav b).drop 34).take 2 = u16le 16 ∧
    ((audioBufferToWav b).drop 36).take 4 = asciiBytes "data" ∧
    ((audioBufferToWav b).drop 40).take 4 = u32le (b.length * b.numberOfChannels * 2) ∧
    ((audioBufferToWav b).drop 44).take (2 * b.chan0.length) = floatTo16BitPCM b.chan0 := by
  have hle : 2 * b.chan0.length ≤ b.length * b.numberOfChannels * 2 := by
    rw [hwf]
    calc 2 * b.length = b.length * 1 * 2 := by ring
      _ ≤ b.length * b.numberOfChannels * 2 :=
        Nat.mul_le_mul_right _ (Nat.mul_le_mul_left _ hch)
  refine ⟨?_, rfl, rfl, rfl, rfl, rfl, rfl, rfl, rfl, rfl, rfl, rfl, rfl, rfl, ?_⟩
  · unfold audioBufferToWav
    dsimp only
    simp only [List.length_append, u32le_length, u16le_length, floatTo16BitPCM_length,
      List.length_replicate, show (asciiBytes "RIFF").length = 4 from rfl,
      show (asciiBytes "WAVE").length = 4 from rfl,
      show (asciiBytes "fmt ").length = 4 from rfl,
      show (asciiBytes "data").length = 4 from rfl]
    generalize hL : b.length * b.numberOfChannels * 2 = L at hle ⊢
    omega
  · show (floatTo16BitPCM b.chan0
        ++ List.replicate (b.length * b.numberOfChannels * 2 - 2 * b.chan0.length) 0).take
          (2 * b.chan0.length) = floatTo16BitPCM b.chan0
    exact List.take_left' (floatTo16BitPCM_length b.chan0)

/-- Witness for C3 at a concrete mono two-sample buffer. -/
theorem wav_header_layout_witness :
    (audioBufferToWav ⟨1, 8000, 2, [1, -1]⟩).length = 44 + 2 * 1 * 2 :=
  (wav_header_layout ⟨1, 8000, 2, [1, -1]⟩ rfl (by decide)).1

end IRBlaster
